import Mathlib

/-!
Verification development for the DaphneDSL-to-IR lowering implemented in
`src/parser/daphnedsl/DaphneDSLVisitor.cpp`.

The development shallowly embeds the algorithmically relevant parts of the
visitor: the type-compatibility check and overload resolution for
user-defined functions (`argAndUDFParamCompatible`, `findMatchingUDF`), the
bound normalization of counted for-loops (`visitForStatement`) and
parallel-for loops (`visitParForStatement`), row/column indexing
(`applyRightIndexing`, `applyLeftIndexing`), the scoped symbol table and
assignment handling (`handleAssignmentPart`), the if-statement live-out
merge (`visitIfStatement`), and the early-return rectification pass
(`rectifyEarlyReturns` and its helpers).

MLIR values are modelled as a small term language `Val`; MLIR types as
`DType`.  Machine integers (`int64_t` bounds of for-loops) are modelled as
`Int`: the visitor performs no wrap-around arithmetic on them.
-/

namespace Daphne

/-- Model of the MLIR types the visitor dispatches on: `daphne::MatrixType`
(with element type), `daphne::FrameType` (with column types),
`daphne::StringType`, `daphne::UnknownType`, and the scalar / index types. -/
inductive DType where
  | unknown
  | si64
  | ui64
  | f64
  | f32
  | boolT
  | index
  | strTy
  | matrix (elem : DType)
  | frame (cols : List DType)

mutual
def DType.decEq : (a b : DType) → Decidable (a = b)
  | .unknown, .unknown => isTrue rfl
  | .si64, .si64 => isTrue rfl
  | .ui64, .ui64 => isTrue rfl
  | .f64, .f64 => isTrue rfl
  | .f32, .f32 => isTrue rfl
  | .boolT, .boolT => isTrue rfl
  | .index, .index => isTrue rfl
  | .strTy, .strTy => isTrue rfl
  | .matrix a, .matrix b =>
    match DType.decEq a b with
    | isTrue h => isTrue (by rw [h])
    | isFalse h => isFalse (fun hh => by cases hh; exact h rfl)
  | .frame a, .frame b =>
    match DType.decEqList a b with
    | isTrue h => isTrue (by rw [h])
    | isFalse h => isFalse (fun hh => by cases hh; exact h rfl)
  | .unknown, .si64 | .unknown, .ui64 | .unknown, .f64 | .unknown, .f32
  | .unknown, .boolT | .unknown, .index | .unknown, .strTy
  | .unknown, .matrix _ | .unknown, .frame _ => isFalse nofun
  | .si64, .unknown | .si64, .ui64 | .si64, .f64 | .si64, .f32
  | .si64, .boolT | .si64, .index | .si64, .strTy
  | .si64, .matrix _ | .si64, .frame _ => isFalse nofun
  | .ui64, .unknown | .ui64, .si64 | .ui64, .f64 | .ui64, .f32
  | .ui64, .boolT | .ui64, .index | .ui64, .strTy
  | .ui64, .matrix _ | .ui64, .frame _ => isFalse nofun
  | .f64, .unknown | .f64, .si64 | .f64, .ui64 | .f64, .f32
  | .f64, .boolT | .f64, .index | .f64, .strTy
  | .f64, .matrix _ | .f64, .frame _ => isFalse nofun
  | .f32, .unknown | .f32, .si64 | .f32, .ui64 | .f32, .f64
  | .f32, .boolT | .f32, .index | .f32, .strTy
  | .f32, .matrix _ | .f32, .frame _ => isFalse nofun
  | .boolT, .unknown | .boolT, .si64 | .boolT, .ui64 | .boolT, .f64
  | .boolT, .f32 | .boolT, .index | .boolT, .strTy
  | .boolT, .matrix _ | .boolT, .frame _ => isFalse nofun
  | .index, .unknown | .index, .si64 | .index, .ui64 | .index, .f64
  | .index, .f32 | .index, .boolT | .index, .strTy
  | .index, .matrix _ | .index, .frame _ => isFalse nofun
  | .strTy, .unknown | .strTy, .si64 | .strTy, .ui64 | .strTy, .f64
  | .strTy, .f32 | .strTy, .boolT | .strTy, .index
  | .strTy, .matrix _ | .strTy, .frame _ => isFalse nofun
  | .matrix _, .unknown | .matrix _, .si64 | .matrix _, .ui64
  | .matrix _, .f64 | .matrix _, .f32 | .matrix _, .boolT
  | .matrix _, .index | .matrix _, .strTy | .matrix _, .frame _ => isFalse nofun
  | .frame _, .unknown | .frame _, .si64 | .frame _, .ui64
  | .frame _, .f64 | .frame _, .f32 | .frame _, .boolT
  | .frame _, .index | .frame _, .strTy | .frame _, .matrix _ => isFalse nofun
def DType.decEqList : (a b : List DType) → Decidable (a = b)
  | [], [] => isTrue rfl
  | x :: xs, y :: ys =>
    match DType.decEq x y, DType.decEqList xs ys with
    | isTrue h1, isTrue h2 => isTrue (by rw [h1, h2])
    | isFalse h1, _ => isFalse (fun hh => by cases hh; exact h1 rfl)
    | _, isFalse h2 => isFalse (fun hh => by cases hh; exact h2 rfl)
  | [], _ :: _ => isFalse nofun
  | _ :: _, [] => isFalse nofun
end

instance : DecidableEq DType := DType.decEq

/-- Model of `CompilerUtils::hasObjType`: matrices and frames are data
objects. -/
def hasObjType : DType → Bool
  | .matrix _ => true
  | .frame _ => true
  | _ => false

-- ***************************************************************************
-- Overload Resolver (DaphneDSLVisitor::argAndUDFParamCompatible /
-- DaphneDSLVisitor::findMatchingUDF, lines 871-953)
-- ***************************************************************************

/-- Embedding of `DaphneDSLVisitor::argAndUDFParamCompatible` (lines
871-888): argument type and parameter type are compatible if they are the
same, or at least one of them is unknown, or they are both matrices and at
least one of them is of unknown value type. -/
def argAndUDFParamCompatible (argTy paramTy : DType) : Bool :=
  paramTy == argTy || argTy == DType.unknown || paramTy == DType.unknown ||
    (match argTy, paramTy with
     | .matrix argElem, .matrix paramElem =>
       argElem == DType.unknown || paramElem == DType.unknown
     | _, _ => false)

/-- A user-defined function registered in `functionsSymbolMap`: its name
(overloads share a name), parameter types, and result types. -/
structure FuncDef where
  name : String
  inputs : List DType
  outputs : List DType
deriving DecidableEq

/-- Error raised by `findMatchingUDF` when a UDF with the given name exists
but no registered version matches the argument types; it carries the
attempted argument types and the parameter lists of all registered
signatures for the name (lines 919-948). -/
inductive ResolveErr where
  | noMatch (name : String) (argTys : List DType) (options : List (List DType))
deriving DecidableEq

/-- Whether one candidate matches the call: the parameter count equals the
argument count and every position is `argAndUDFParamCompatible`
(lines 899-915). -/
def candidateMatches (f : FuncDef) (argTys : List DType) : Bool :=
  f.inputs.length == argTys.length &&
    (f.inputs.zip argTys).all (fun p => argAndUDFParamCompatible p.2 p.1)

/-- Embedding of `DaphneDSLVisitor::findMatchingUDF` (lines 890-953).  The
multimap `functionsSymbolMap` is modelled as a list in registration order;
`equal_range` is the name filter.  The first matching candidate is selected;
if the name is registered but nothing matches, the error enumerates all
options; if the name is unregistered, `none` is returned so the caller can
fall back to the builtin registry. -/
def findMatchingUDF (fns : List FuncDef) (nm : String) (argTys : List DType) :
    Except ResolveErr (Option FuncDef) :=
  let cands := fns.filter (fun f => f.name == nm)
  match cands.find? (fun f => candidateMatches f argTys) with
  | some f => .ok (some f)
  | none =>
    if cands.isEmpty then .ok none
    else .error (.noMatch nm argTys (cands.map (fun f => f.inputs)))

-- ***************************************************************************
-- Counted for-loop bound normalization (DaphneDSLVisitor::visitForStatement,
-- lines 594-697) and parallel-for bounds (visitParForStatement, 699-766)
-- ***************************************************************************

/-- Iteration values of MLIR's `scf.for`: the induction variable starts at
`lb` and counts upwards by `step` while it is strictly below `ub`
(`scf.for` requires a positive step; a non-positive step yields no model). -/
def scfForIndices (lb ub step : Int) : List Int :=
  if step ≤ 0 then []
  else
    let n := if lb ≥ ub then 0 else ((ub - lb).toNat + (step.toNat - 1)) / step.toNat
    (List.range n).map (fun i => lb + step * i)

/-- Result of the bound computation of `visitForStatement` (lines 600-631)
together with the values the script-visible induction variable takes. -/
structure CountedForLowering where
  step : Int
  direction : Int
  toAdj : Int
  fromNorm : Int
  toNorm : Int
  stepNorm : Int
  ivValues : List Int
deriving DecidableEq

/-- Embedding of the from/to/step handling of
`DaphneDSLVisitor::visitForStatement` (lines 600-631): if the step is
given, the direction is its sign; if it is omitted, the step is derived as
`-1 + 2 * (to >= from)` and the direction equals the step.  The upper bound
is made exclusive by `to + direction`, all three bounds are multiplied by
the direction so the underlying `scf.for` counts upwards, and the
script-visible induction variable is the underlying counter multiplied by
the direction (line 647). -/
def lowerCountedFor (fromV toV : Int) (stepOpt : Option Int) : CountedForLowering :=
  let step := match stepOpt with
    | some s => s
    | none => -1 + 2 * (if toV ≥ fromV then (1 : Int) else 0)
  let direction := match stepOpt with
    | some s => s.sign
    | none => step
  let toAdj := toV + direction
  let fromNorm := fromV * direction
  let toNorm := toAdj * direction
  let stepNorm := step * direction
  { step := step
    direction := direction
    toAdj := toAdj
    fromNorm := fromNorm
    toNorm := toNorm
    stepNorm := stepNorm
    ivValues := (scfForIndices fromNorm toNorm stepNorm).map (fun c => c * direction) }

/-- The bounds a parallel-for loop hands to the `ParForOp`. -/
structure ParForBounds where
  fromV : Int
  toV : Int
  stepV : Int
deriving DecidableEq

/-- Embedding of the from/to/step handling of
`DaphneDSLVisitor::visitParForStatement` (lines 705-713, 765-766): from and
to are passed through unchanged, and the step defaults to the constant 1
when omitted; no further arithmetic is applied to any of the three. -/
def lowerParForBounds (fromV toV : Int) (stepOpt : Option Int) : ParForBounds :=
  { fromV := fromV
    toV := toV
    stepV := match stepOpt with
      | some s => s
      | none => 1 }

-- ***************************************************************************
-- Binding store and assignment handling (ScopedSymbolTable usage,
-- DaphneDSLVisitor::renameIf / handleAssignmentPart, lines 54-104)
-- ***************************************************************************

/-- Model of an MLIR SSA value as the term that produced it: a plain SSA
result, the result of a `daphne.RenameOp` wrapper (`renameIf`, line 56), a
cast (`utils.castIf`), the `EwMulOp` that un-compensates the induction
variable for the counting direction (line 647), or the result of the left
indexing write pipeline on an object (lines 81-96). -/
inductive Val where
  | ssa (n : Nat)
  | rename (v : Val)
  | cast (t : DType) (v : Val)
  | mul (a b : Val)
  | idxWrite (obj ins : Val)
deriving DecidableEq

/-- One binding of `ScopedSymbolTable::SymbolInfo`: the bound value, its
type, and the read-only flag. -/
structure SymbolInfo where
  value : Val
  ty : DType
  readOnly : Bool
deriving DecidableEq

/-- The symbol table flattened innermost-scope-first: lookup takes the first
binding for a name, so `put` (which inserts into the innermost scope)
prepends and shadows. -/
abbrev SymTab := List (String × SymbolInfo)

/-- Innermost-to-outermost lookup of `ScopedSymbolTable::get`. -/
def SymTab.get : SymTab → String → Option SymbolInfo
  | [], _ => none
  | (n, i) :: rest, var => if n == var then some i else SymTab.get rest var

/-- Insertion into the innermost scope (`ScopedSymbolTable::put`). -/
def SymTab.put (st : SymTab) (var : String) (info : SymbolInfo) : SymTab :=
  (var, info) :: st

/-- Whether some binding of the table currently holds the value
(`ScopedSymbolTable::has(mlir::Value)`). -/
def SymTab.hasVal (st : SymTab) (v : Val) : Bool :=
  st.any (fun b => b.2.value == v)

/-- Embedding of `DaphneDSLVisitor::renameIf` (lines 54-59): if the value is
currently bound to some name, wrap it in a `RenameOp` with the same type;
otherwise pass it through. -/
def renameIf (st : SymTab) (v : Val) : Val :=
  if st.hasVal v then .rename v else v

/-- Errors of `handleAssignmentPart`. -/
inductive AssignErr where
  | readOnlyViolation (var : String)
  | leftIdxBeforeAssign (var : String)
deriving DecidableEq

/-- Embedding of `DaphneDSLVisitor::handleAssignmentPart` (lines 61-104).
Before anything else, assigning to a name whose current binding is marked
read-only is a hard error (lines 64-66).  With left indexing, the variable
must already be bound (lines 69-72) and is rebound to the result of the
write pipeline (the pipeline's three composed operations are modelled by
the single `Val.idxWrite` node; its per-axis error behaviour is verified
separately on `applyLeftIndexing`).  Without indexing the variable is
rebound to the (possibly renamed) value; the new binding is writable. -/
def handleAssignmentPart (st : SymTab) (var : String) (hasIdx : Bool)
    (val : Val) (ty : DType) : Except AssignErr SymTab :=
  match st.get var with
  | some info =>
    if info.readOnly then .error (.readOnlyViolation var)
    else if hasIdx then
      .ok (st.put var ⟨.idxWrite info.value val, info.ty, false⟩)
    else
      .ok (st.put var ⟨renameIf st val, ty, false⟩)
  | none =>
    if hasIdx then .error (.leftIdxBeforeAssign var)
    else .ok (st.put var ⟨renameIf st val, ty, false⟩)

/-- Binding of the counted for-loop's induction variable
(`visitForStatement`, lines 642-649): the placeholder is cast to si64 and
multiplied by the direction, and the binding is marked read-only. -/
def bindForInductionVar (st : SymTab) (ivName : String) (ph direction : Val) : SymTab :=
  st.put ivName ⟨.mul (.cast .si64 ph) direction, .si64, true⟩

/-- Binding of the parallel-for loop's induction variable
(`visitParForStatement`, lines 722-725): the block argument placeholder is
bound directly with the read-only flag set to false. -/
def bindParForInductionVar (st : SymTab) (ivName : String) (ivPH : Val) : SymTab :=
  st.put ivName ⟨ivPH, .index, false⟩

-- ***************************************************************************
-- Indexing Engine (DaphneDSLVisitor::applyRightIndexing /
-- applyLeftIndexing, lines 106-187)
-- ***************************************************************************

/-- Errors of the indexing engine; the three left-indexing errors correspond
to the three distinct `UnsupportedFeatureError` messages of
`applyLeftIndexing` and the two right-indexing ones to `applyRightIndexing`. -/
inductive IdxErr where
  | rightLabelNotAllowed
  | rightUnsupportedType
  | leftDataObjUnsupported
  | leftLabelUnsupported
  | leftLabelNotAllowed
  | leftUnsupportedType
deriving DecidableEq

/-- One axis specification: a single position (an SSA value, typed; the C++
dispatches on the value's MLIR type) or a half-open range with optionally
omitted bounds. -/
inductive AxSpec where
  | pos (v : Val) (ty : DType)
  | range (lo hi : Option Val)

/-- A slice/insert bound: an explicit value, an explicit value plus one (the
`EwAddOp` with constant 1 of lines 124-126 and 168-170), the defaulted
lower bound 0 (line 135/179), or the defaulted upper bound `NumAxOp(arg)`
(line 137/181). -/
inductive Bound where
  | bval (v : Val)
  | plusOne (v : Val)
  | zero
  | axSize
deriving DecidableEq

/-- Semantics of a bound, given an environment for values and the axis
size. -/
def Bound.evalB (env : Val → Int) (axSz : Int) : Bound → Int
  | .bval v => env v
  | .plusOne v => env v + 1
  | .zero => 0
  | .axSize => axSz

/-- Operation emitted by a right (read) indexing on one axis. -/
inductive IndexedRead where
  | extractAx (posV : Val)
  | sliceAx (lo hi : Bound)
deriving DecidableEq

/-- Operation emitted by a left (write) indexing on one axis. -/
inductive IndexedWrite where
  | insertAx (lo hi : Bound)
deriving DecidableEq

/-- Embedding of `DaphneDSLVisitor::applyRightIndexing` (lines 106-144): a
data-object position extracts, a label string extracts only where labels
are allowed, a scalar slices the width-1 range `[v, v+1)`, and a range
slices with bounds defaulted to 0 and the axis size. -/
def applyRightIndexing (ax : AxSpec) (allowLabel : Bool) :
    Except IdxErr IndexedRead :=
  match ax with
  | .pos v ty =>
    if hasObjType ty then .ok (.extractAx v)
    else if ty == DType.strTy then
      if allowLabel then .ok (.extractAx v)
      else .error .rightLabelNotAllowed
    else .ok (.sliceAx (.bval v) (.plusOne v))
  | .range lo hi =>
    .ok (.sliceAx (match lo with | some v => .bval v | none => .zero)
                  (match hi with | some v => .bval v | none => .axSize))

/-- Embedding of `DaphneDSLVisitor::applyLeftIndexing` (lines 146-187):
positions given as a data object are unsupported for writes, positions
given as a label string are unsupported for writes both where the target
supports labels and otherwise (two distinct errors), a scalar inserts at
the width-1 range `[v, v+1)`, and a range inserts with defaulted bounds. -/
def applyLeftIndexing (ax : AxSpec) (allowLabel : Bool) :
    Except IdxErr IndexedWrite :=
  match ax with
  | .pos v ty =>
    if hasObjType ty then .error .leftDataObjUnsupported
    else if ty == DType.strTy then
      if allowLabel then .error .leftLabelUnsupported
      else .error .leftLabelNotAllowed
    else .ok (.insertAx (.bval v) (.plusOne v))
  | .range lo hi =>
    .ok (.insertAx (match lo with | some v => .bval v | none => .zero)
                   (match hi with | some v => .bval v | none => .axSize))

-- ***************************************************************************
-- Control-Flow Merger for conditionals (DaphneDSLVisitor::visitIfStatement,
-- lines 403-486)
-- ***************************************************************************

/-- Modelled from the spec: `CompilerUtils::equalUnknownAware` is declared
in `compiler/utils/CompilerUtils.h`, which is not part of src/.  The spec
says the then- and else-branch values' types "must be equal or Unknown on
at least one side". -/
def equalUnknownAware (t1 t2 : DType) : Bool :=
  t1 == t2 || t1 == DType.unknown || t2 == DType.unknown

/-- Sorted insertion without duplicates; models iterating a
`std::set<std::string>` in ascending order. -/
def insertSorted (s : String) : List String → List String
  | [] => [s]
  | hd :: tl =>
    if s < hd then s :: hd :: tl
    else if s == hd then hd :: tl
    else hd :: insertSorted s tl

/-- The live-out set of `ScopedSymbolTable::mergeSymbols`: the set of names
rebound in either branch, iterated in ascending order. -/
def sortedUnion (a b : List String) : List String :=
  (a ++ b).foldr insertSorted []

/-- The live-out set of an if-statement: the union of the names rebound in
either branch, in ascending order. -/
def liveOutNames (owThen owElse : SymTab) : List String :=
  sortedUnion (owThen.map Prod.fst) (owElse.map Prod.fst)

/-- The TypeAmbiguityError payload: the variable whose type after the
if-statement is ambiguous, and the types it has in the two branches
(lines 446-450). -/
structure TypeAmbig where
  var : String
  tyThen : DType
  tyElse : DType
deriving DecidableEq

/-- Errors of the if-statement lowering. -/
inductive IfLowerErr where
  | ambiguous (e : TypeAmbig)
  | unbound (var : String)
deriving DecidableEq

/-- Lookup through a popped branch scope with fallback to the enclosing
table (`symbolTable.get(name, overlay)`): a branch that did not rebind the
name contributes its pre-construct value. -/
def getOverlay (ow : SymTab) (st : SymTab) (n : String) : Option SymbolInfo :=
  match SymTab.get ow n with
  | some i => some i
  | none => SymTab.get st n

/-- The per-name type check of `visitIfStatement` (lines 434-454): for each
live-out name in ascending order, the types of its then- and else-branch
values must be `equalUnknownAware`; the first violation raises the
ambiguity error naming the variable and both types. -/
def mergeTypes (st owThen owElse : SymTab) : List String → Except IfLowerErr (List (String × DType))
  | [] => .ok []
  | n :: rest =>
    match getOverlay owThen st n, getOverlay owElse st n with
    | some iT, some iE =>
      if equalUnknownAware iT.ty iE.ty then
        match mergeTypes st owThen owElse rest with
        | .ok tl => .ok ((n, iT.ty) :: tl)
        | .error e => .error e
      else .error (.ambiguous ⟨n, iT.ty, iE.ty⟩)
    | _, _ => .error (.unbound n)

/-- Result of lowering an if-statement: the live-out names, whether an
else region is generated, and the rebinding of each live-out name to the
correspondingly indexed result of the conditional operation. -/
structure IfLowering where
  liveOut : List String
  elseRegion : Bool
  bindings : List (String × Nat × DType)
deriving DecidableEq

/-- Embedding of the merge part of `DaphneDSLVisitor::visitIfStatement`
(lines 429-486): compute the live-out set, check per-name type
compatibility, generate the else block only if the script had one
explicitly or values must be yielded (line 477-478), and rebind each
live-out name to the conditional's result of the same index
(lines 481-483). -/
def lowerIf (st : SymTab) (hasElseStmt : Bool) (owThen owElse : SymTab) :
    Except IfLowerErr IfLowering :=
  let names := liveOutNames owThen owElse
  match mergeTypes st owThen owElse names with
  | .error e => .error e
  | .ok tys =>
    .ok { liveOut := names
          elseRegion := hasElseStmt || !names.isEmpty
          bindings := tys.enum.map (fun p => (p.2.1, p.1, p.2.2)) }

-- ***************************************************************************
-- Return Rectifier (removeOperationsBeforeReturnOp,
-- rectifyIfCaseWithoutReturnOp, replaceReturnWithYield, rectifyEarlyReturn,
-- rectifyEarlyReturns; lines 1927-2144)
-- ***************************************************************************

/-- Structural model of the operations the rectifier manipulates inside a
function block: a generic operation (`op`), a `daphne::ReturnOp` (`ret`), an
`scf::YieldOp` (`yld`), an `scf::IfOp` with its two branch blocks (an absent
else region is the empty block), a `daphne::ParForOp` body, and any other
region-carrying operation (for example `scf.for` or `scf.while`), tagged
with its operation name for the error message of lines 2139-2141.  Operand
lists of returns and yields are SSA value ids. -/
inductive Op where
  | op (id : Nat)
  | ret (vals : List Nat)
  | yld (vals : List Nat)
  | scfIf (cond : Nat) (thenB elseB : List Op)
  | parForOp (body : List Op)
  | regionOp (nm : String) (body : List Op)

/-! Number of `ReturnOp`s anywhere inside one operation / a block, in the
order `Block::walk` encounters them. -/
mutual
def countRetsOp : Op → Nat
  | .ret _ => 1
  | .yld _ => 0
  | .op _ => 0
  | .scfIf _ tb eb => countRetsOps tb + countRetsOps eb
  | .parForOp b => countRetsOps b
  | .regionOp _ b => countRetsOps b
def countRetsOps : List Op → Nat
  | [] => 0
  | o :: rest => countRetsOp o + countRetsOps rest
end

/-! Nesting depths of every `ReturnOp`, in walk order; the depth counts the
blocks between the return and the function block, starting at 1 for a
return directly in the function block (lines 2111-2117). -/
mutual
def retDepthsOp : Op → Nat → List Nat
  | .ret _, d => [d]
  | .yld _, _ => []
  | .op _, _ => []
  | .scfIf _ tb eb, d => retDepthsOps tb (d + 1) ++ retDepthsOps eb (d + 1)
  | .parForOp b, d => retDepthsOps b (d + 1)
  | .regionOp _ b, d => retDepthsOps b (d + 1)
def retDepthsOps : List Op → Nat → List Nat
  | [], _ => []
  | o :: rest, d => retDepthsOp o d ++ retDepthsOps rest d
end

/-- Maximum return-nesting depth of a function block (0 when no return
exists). -/
def maxRetDepth (b : List Op) : Nat := (retDepthsOps b 1).foldl max 0

/-- The fold of lines 2109-2123: keep the first return whose depth is
strictly greater than every depth seen before.  The result is the pair of
the chosen return's depth and its index in walk order. -/
def pickAux : List Nat → Nat → Option (Nat × Nat) → Option (Nat × Nat)
  | [], _, best => best
  | d :: rest, i, best =>
    match best with
    | none => pickAux rest (i + 1) (some (d, i))
    | some (bd, bi) =>
      if d > bd then pickAux rest (i + 1) (some (d, i))
      else pickAux rest (i + 1) (some (bd, bi))

/-- Selection of the most nested return (depth and walk-order index). -/
def pickMostNested (ds : List Nat) : Option (Nat × Nat) := pickAux ds 0 none

/-- Owner of a block the rectifier walks through: the kind of the operation
whose region contains the block, together with the operations following
that owner in its own block (needed when the rewrite moves or clones the
code after an enclosing `scf.if`). -/
inductive Owner where
  | ifOwner
  | parforOwner
  | regionOwner (nm : String)
deriving DecidableEq

/-- One level of enclosing context: the owner kind of the current block and
the suffix of operations following the owning operation in its block. -/
abbrev Frame := Owner × List Op

/-- Kind of the operation owning the block that directly contains a return:
the function itself, an `scf.if`, a `daphne.parfor`, or another region
operation with its name. -/
inductive PKind where
  | pFunc
  | pIf
  | pParfor
  | pRegion (nm : String)
deriving DecidableEq

/-- Owner kind of the current block as determined by the context stack. -/
def kindOfCtx : List Frame → PKind
  | [] => .pFunc
  | (.ifOwner, _) :: _ => .pIf
  | (.parforOwner, _) :: _ => .pParfor
  | (.regionOwner nm, _) :: _ => .pRegion nm

/-- Errors of the rectifier, one per `throw` site (plus fuel exhaustion of
the model's fixpoint loop and the navigation-invariant marker). -/
inductive RectErr where
  | outOfFuel
  | earlyReturnIn (nm : String)
  | yieldOutsideIf
  | finalThenNotRet
  | finalElseNotRet
  | unreachableTarget
deriving DecidableEq

/-- Whether an operation is an `scf::YieldOp`. -/
def isYld : Op → Bool
  | .yld _ => true
  | _ => false

/-- Whether a block contains a top-level `ReturnOp`
(`newThenBlock->getOps<mlir::daphne::ReturnOp>()`, lines 2015/2039). -/
def hasTopRet (ops : List Op) : Bool :=
  ops.any (fun o => match o with | .ret _ => true | _ => false)

/-- Effect of `removeOperationsBeforeReturnOp` (lines 1927-1936): every
operation after the first top-level return of the block is erased (with a
diagnostic) as unreachable. -/
def truncAtRet : List Op → List Op
  | [] => []
  | .ret vs :: _ => [.ret vs]
  | o :: rest => o :: truncAtRet rest

/-- Effect of `replaceReturnWithYield` (lines 2002-2007) on the final
operation of a branch, after checking it is a return (lines 2023-2030 and
2047-2054): yields the return's operands. -/
def replaceFinalRet (ops : List Op) : Option (List Nat × List Op) :=
  match ops.getLast? with
  | some (.ret vs) => some (vs, ops.dropLast ++ [Op.yld vs])
  | _ => none

/-- Splits a block at its first top-level yield: the operations before it
and, if present, the yield's operands. -/
def chainSeg : List Op → List Op × Option (List Nat)
  | [] => ([], none)
  | .yld vs :: _ => ([], some vs)
  | o :: rest =>
    let (s, y) := chainSeg rest
    (o :: s, y)

/-- The move/clone walk of lines 1955-1978: starting from the operations
after the rectified `scf.if`, operations are appended to the case block one
by one; reaching a block-terminating yield, the walk continues after the
yield's owning operation — which must be an `scf.if`, otherwise the early
return is not nested in ifs only and lowering fails (lines 1958-1963).
Operations of the first segment are moved, operations of outer segments are
cloned; the cloned originals stay in place, so the produced list is the
full appended chain and the caller drops only the first segment. -/
def buildChain (cur : List Op) : List Frame → Except RectErr (List Op)
  | [] =>
    match chainSeg cur with
    | (s, none) => .ok s
    | (_, some _) => .error .yieldOutsideIf
  | (ow, suffix) :: fs =>
    match chainSeg cur with
    | (s, none) => .ok s
    | (s, some vs) =>
      match ow with
      | .ifOwner =>
        match buildChain suffix fs with
        | .ok tail => .ok (s ++ Op.yld vs :: tail)
        | .error e => .error e
      | _ => .error .yieldOutsideIf

/-- Embedding of `rectifyIfCaseWithoutReturnOp` (lines 1945-2000) for the
branch that has no top-level return: ensure a trailing yield exists (lines
1947-1951), append the moved/cloned operations that originally executed
after the rectified if (lines 1955-1978), then erase every top-level yield
of the case block (lines 1982-1999; the accompanying use-replacement
rewires SSA uses and does not change the operation structure). -/
def rectifyCaseNoRet (caseOps sp : List Op) (ctx : List Frame) :
    Except RectErr (List Op) :=
  let cb :=
    match caseOps.getLast? with
    | some (.yld vs) => caseOps.dropLast ++ [Op.yld vs]
    | _ => caseOps ++ [Op.yld []]
  match buildChain sp ctx with
  | .ok chain => .ok ((cb ++ chain).filter (fun o => !isYld o))
  | .error e => .error e

/-- Embedding of `rectifyEarlyReturn` (lines 2009-2062) applied to an
`scf.if` with condition `c`, branches `tb`/`eb`, the operations `sp`
following it in its block, and the enclosing context.  Each branch with a
top-level return is truncated after its first return; a branch without one
receives the code that originally executed after the if; each branch's
final return becomes a yield; the new if is followed by a fresh return of
the new if's results (line 2060; the results correspond positionally to the
then-branch yield, whose operand ids name them here).  The boolean reports
whether the suffix `sp` was moved away from the enclosing block. -/
def rectifyEarlyReturnE (c : Nat) (tb eb sp : List Op) (ctx : List Frame) :
    Except RectErr (List Op × Bool) :=
  let thenHasRet := hasTopRet tb
  let tbRes : Except RectErr (List Op) :=
    if thenHasRet then .ok (truncAtRet tb) else rectifyCaseNoRet tb sp ctx
  match tbRes with
  | .error e => .error e
  | .ok tb1 =>
    match replaceFinalRet tb1 with
    | none => .error .finalThenNotRet
    | some (tvals, tb2) =>
      let elseHasRet := hasTopRet eb
      let ebRes : Except RectErr (List Op) :=
        if elseHasRet then .ok (truncAtRet eb) else rectifyCaseNoRet eb sp ctx
      match ebRes with
      | .error e => .error e
      | .ok eb1 =>
        match replaceFinalRet eb1 with
        | none => .error .finalElseNotRet
        | some (_, eb2) =>
          .ok ([Op.scfIf c tb2 eb2, Op.ret tvals], !thenHasRet || !elseHasRet)

/-- Whether the k-th return (walk order) of a block lies directly in that
block rather than nested inside one of its operations; used to recognise
that the chosen return's parent operation is the currently scanned
`scf.if`. -/
def kthRetTopLevel : List Op → Nat → Bool
  | [], _ => false
  | .ret _ :: _, 0 => true
  | .ret _ :: rest, k + 1 => kthRetTopLevel rest k
  | o :: rest, k =>
    if k < countRetsOp o then false else kthRetTopLevel rest (k - countRetsOp o)

/-- Result of one rewrite step at block level: the loop breaks (the chosen
return sits in a `ParForOp` body, lines 2133-2137), or the block is
replaced by a new one. -/
inductive RWRes where
  | brk
  | cont (newOps : List Op)

/-! Navigation to the chosen return and dispatch on its parent operation
(lines 2129-2142), performed as one recursive pass.  `rewriteOp o k rest
ctx` handles the case that the `k`-th return of `o :: rest` lies inside
`o`: if `o` itself is that return, its parent is the current block's owner
— the function (error), a parfor body (break) or another region op (error);
the owner `scf.if` case cannot arise because a return directly inside an
`scf.if` branch is intercepted one level up, where `rectifyEarlyReturn` is
applied.  Otherwise the pass descends into `o`'s regions, pushing a context
frame recording the owner kind and the suffix after `o`. -/
mutual
def rewriteOp : Op → Nat → List Op → List Frame → Except RectErr RWRes
  | .ret _, _, _, ctx =>
    match ctx with
    | [] => .error (.earlyReturnIn "func.func")
    | (.parforOwner, _) :: _ => .ok .brk
    | (.regionOwner nm, _) :: _ => .error (.earlyReturnIn nm)
    | (.ifOwner, _) :: _ => .error .unreachableTarget
  | .yld _, _, _, _ => .error .unreachableTarget
  | .op _, _, _, _ => .error .unreachableTarget
  | .scfIf c tb eb, k, rest, ctx =>
    if k < countRetsOps tb then
      if kthRetTopLevel tb k then
        match rectifyEarlyReturnE c tb eb rest ctx with
        | .ok (newOps, moved) =>
          .ok (.cont (newOps ++ if moved then [] else rest))
        | .error e => .error e
      else
        match rewriteBlock tb k ((.ifOwner, rest) :: ctx) with
        | .ok (.cont tb1) => .ok (.cont (.scfIf c tb1 eb :: rest))
        | r => r
    else
      if kthRetTopLevel eb (k - countRetsOps tb) then
        match rectifyEarlyReturnE c tb eb rest ctx with
        | .ok (newOps, moved) =>
          .ok (.cont (newOps ++ if moved then [] else rest))
        | .error e => .error e
      else
        match rewriteBlock eb (k - countRetsOps tb) ((.ifOwner, rest) :: ctx) with
        | .ok (.cont eb1) => .ok (.cont (.scfIf c tb eb1 :: rest))
        | r => r
  | .parForOp body, k, rest, ctx =>
    match rewriteBlock body k ((.parforOwner, rest) :: ctx) with
    | .ok (.cont body1) => .ok (.cont (.parForOp body1 :: rest))
    | r => r
  | .regionOp nm body, k, rest, ctx =>
    match rewriteBlock body k ((.regionOwner nm, rest) :: ctx) with
    | .ok (.cont body1) => .ok (.cont (.regionOp nm body1 :: rest))
    | r => r
def rewriteBlock : List Op → Nat → List Frame → Except RectErr RWRes
  | [], _, _ => .error .unreachableTarget
  | o :: rest, k, ctx =>
    if k < countRetsOp o then rewriteOp o k rest ctx
    else
      match rewriteBlock rest (k - countRetsOp o) ctx with
      | .ok (.cont rest1) => .ok (.cont (o :: rest1))
      | r => r
end

/-! Parent-operation kind of the `k`-th return (walk order) of a block,
where `pk` is the owner kind of the block itself; mirrors the navigation of
`rewriteBlock`. -/
mutual
def parentKindOp : Op → Nat → PKind → Option PKind
  | .ret _, k, pk => if k = 0 then some pk else none
  | .yld _, _, _ => none
  | .op _, _, _ => none
  | .scfIf _ tb eb, k, _ =>
    if k < countRetsOps tb then parentKindOps tb k .pIf
    else parentKindOps eb (k - countRetsOps tb) .pIf
  | .parForOp b, k, _ => parentKindOps b k .pParfor
  | .regionOp nm b, k, _ => parentKindOps b k (.pRegion nm)
def parentKindOps : List Op → Nat → PKind → Option PKind
  | [], _, _ => none
  | o :: rest, k, pk =>
    if k < countRetsOp o then parentKindOp o k pk
    else parentKindOps rest (k - countRetsOp o) pk
end

/-- The stop test of line 2124: the chosen return is the last operation of
the function block.  A return is the last walk-order return exactly when
its index is `countRetsOps b - 1`. -/
def chosenIsBack (b : List Op) (k : Nat) : Bool :=
  match b.getLast? with
  | some (.ret _) => k + 1 == countRetsOps b
  | _ => false

/-- Outcome of one iteration of the fixpoint loop. -/
inductive StepRes where
  | fin
  | next (b : List Op)

/-- One iteration of the loop of `rectifyEarlyReturns` (lines 2108-2143):
find the most nested return; stop if none exists or it is already the
block's last operation; otherwise dispatch on its parent operation —
rectify an `scf.if`, stop at a `ParForOp`, fail on anything else. -/
def rectifyStep (b : List Op) : Except RectErr StepRes :=
  match pickMostNested (retDepthsOps b 1) with
  | none => .ok .fin
  | some (_, k) =>
    if chosenIsBack b k then .ok .fin
    else
      match rewriteBlock b k [] with
      | .error e => .error e
      | .ok .brk => .ok .fin
      | .ok (.cont b1) => .ok (.next b1)

/-- Embedding of `rectifyEarlyReturns` (lines 2105-2144): the fixpoint loop,
with explicit fuel standing for the unbounded `while (true)`. -/
def rectifyEarlyReturns : Nat → List Op → Except RectErr (List Op)
  | 0, _ => .error .outOfFuel
  | fuel + 1, b =>
    match rectifyStep b with
    | .error e => .error e
    | .ok .fin => .ok b
    | .ok (.next b1) => rectifyEarlyReturns fuel b1

-- ***************************************************************************
-- Concrete example bodies
-- ***************************************************************************

/-- A function block with two sibling conditionals carrying early returns,
followed by a final return; corresponds to
`if (c1) \x7b return v10; \x7d if (c2) \x7b return v20; \x7d return v30;`. -/
def twoSiblingIfBody : List Op :=
  [Op.scfIf 1 [Op.ret [10], Op.yld []] [],
   Op.scfIf 2 [Op.ret [20], Op.yld []] [],
   Op.ret [30]]

/-- The block produced by one rewrite step on `twoSiblingIfBody`: the second
conditional is moved into the else branch of the rebuilt first conditional,
so the return it contains is nested one level deeper than before. -/
def twoSiblingIfStep1 : List Op :=
  [Op.scfIf 1 [Op.yld [10]]
     [Op.scfIf 2 [Op.ret [20], Op.yld []] [], Op.yld [30]],
   Op.ret [10]]

/-- The fixpoint the rectifier reaches on `twoSiblingIfBody`: a single
trailing return fed by nested conditionals whose branches only yield. -/
def twoSiblingIfDone : List Op :=
  [Op.scfIf 1 [Op.yld [10]]
     [Op.scfIf 2 [Op.yld [20]] [Op.yld [10]], Op.yld [20]],
   Op.ret [10]]

/-- A function block whose nested return sits directly in a parallel-for
body, followed by the function's final return. -/
def parforRetBody : List Op :=
  [Op.parForOp [Op.ret [1], Op.ret [2]], Op.ret []]

/-- A function block whose nested return sits directly in an `scf.for`
body, followed by the function's final return. -/
def scfForRetBody : List Op :=
  [Op.regionOp "scf.for" [Op.ret [1]], Op.ret []]

-- ***************************************************************************
-- Theorems
-- ***************************************************************************

/-- C1: for a counted for-loop with omitted step, the lowering derives the
step as `-1 + 2*(to >= from ? 1 : 0)` (always +1 or -1, even when from
equals to), sets direction = step, normalizes `to' = to + direction`,
`from'' = from*direction`, `to'' = to'*direction`, `step'' =
step*direction`, and binds the script-visible induction variable as the
underlying ascending counter multiplied by the direction; consequently
`for (i in 5:1)` iterates 5,4,3,2,1, `for (i in 1:5)` iterates 1,2,3,4,5,
and `for (i in 3:3)` executes exactly once with i = 3. -/
theorem counted_for_omitted_step_normalization :
    (∀ fromV toV : Int,
      (lowerCountedFor fromV toV none).step =
          -1 + 2 * (if toV ≥ fromV then (1 : Int) else 0) ∧
      ((lowerCountedFor fromV toV none).step = 1 ∨
        (lowerCountedFor fromV toV none).step = -1) ∧
      (lowerCountedFor fromV toV none).direction = (lowerCountedFor fromV toV none).step ∧
      (lowerCountedFor fromV toV none).toAdj =
          toV + (lowerCountedFor fromV toV none).direction ∧
      (lowerCountedFor fromV toV none).fromNorm =
          fromV * (lowerCountedFor fromV toV none).direction ∧
      (lowerCountedFor fromV toV none).toNorm =
          (lowerCountedFor fromV toV none).toAdj * (lowerCountedFor fromV toV none).direction ∧
      (lowerCountedFor fromV toV none).stepNorm =
          (lowerCountedFor fromV toV none).step * (lowerCountedFor fromV toV none).direction ∧
      (lowerCountedFor fromV toV none).ivValues =
        (scfForIndices (lowerCountedFor fromV toV none).fromNorm
            (lowerCountedFor fromV toV none).toNorm
            (lowerCountedFor fromV toV none).stepNorm).map
          (fun c => c * (lowerCountedFor fromV toV none).direction)) ∧
    (lowerCountedFor 5 1 none).ivValues = [5, 4, 3, 2, 1] ∧
    (lowerCountedFor 1 5 none).ivValues = [1, 2, 3, 4, 5] ∧
    (lowerCountedFor 3 3 none).ivValues = [3] := by
  refine ⟨?_, by decide, by decide, by decide⟩
  intro fromV toV
  by_cases h : toV ≥ fromV <;>
    simp [lowerCountedFor, h]

/-- C4 counterexample: the parallel-for lowering hands the upper bound to
the `ParForOp` unchanged — for `from = 1, to = 5` (step omitted, ascending
direction 1) it passes 5, not the inclusive-to-exclusive adjusted
`to + direction = 6` that the counted for-loop computes. -/
theorem parfor_bounds_cex :
    (lowerParForBounds 1 5 none).toV = 5 ∧
    (lowerCountedFor 1 5 none).toAdj = 6 ∧
    (5 : Int) ≠ 6 := by decide

/-- C4 (amended): the parallel-for lowering performs no bound normalization
at all — from and to are passed through unchanged with no
inclusive-to-exclusive adjustment of the upper bound and no direction
handling — and the step defaults to 1 when omitted. -/
theorem parfor_bounds_passthrough :
    ∀ (fromV toV : Int) (stepOpt : Option Int),
      lowerParForBounds fromV toV stepOpt =
        { fromV := fromV, toV := toV,
          stepV := match stepOpt with | some s => s | none => 1 } := by
  intro fromV toV stepOpt
  cases stepOpt <;> rfl

/-- The two registered overloads `g(si64)->si64` and `g(f64)->f64` of the
spec's example. -/
def gOverloads : List FuncDef :=
  [⟨"g", [.si64], [.si64]⟩, ⟨"g", [.f64], [.f64]⟩]

/-- C5: UDF overload resolution.  An unregistered name yields no match (the
caller falls back to builtins) rather than an error; a selected candidate
is a registered overload of the called name whose parameter count equals
the argument count and whose every position is compatible; the positional
compatibility test holds exactly when the types are equal, either side is
Unknown, or both are matrices with at least one Unknown element type; if
the name is registered but no candidate matches, the error enumerates all
registered signatures against the attempted argument types; concretely,
with `g(si64)` and `g(f64)` registered, a call with an Unknown-typed
argument succeeds while a call with a string argument fails listing both
signatures. -/
theorem udf_overload_resolution :
    (∀ fns nm argTys, fns.filter (fun f => f.name == nm) = [] →
        findMatchingUDF fns nm argTys = .ok none) ∧
    (∀ fns nm argTys f, findMatchingUDF fns nm argTys = .ok (some f) →
        f ∈ fns ∧ f.name = nm ∧ f.inputs.length = argTys.length ∧
        (f.inputs.zip argTys).all (fun p => argAndUDFParamCompatible p.2 p.1) = true) ∧
    (∀ a p, argAndUDFParamCompatible a p = true ↔
        (p = a ∨ a = DType.unknown ∨ p = DType.unknown ∨
          ∃ ea ep, a = DType.matrix ea ∧ p = DType.matrix ep ∧
            (ea = DType.unknown ∨ ep = DType.unknown))) ∧
    (∀ fns nm argTys, fns.filter (fun f => f.name == nm) ≠ [] →
        (∀ f ∈ fns.filter (fun f => f.name == nm), candidateMatches f argTys = false) →
        findMatchingUDF fns nm argTys =
          .error (.noMatch nm argTys
            ((fns.filter (fun f => f.name == nm)).map (fun f => f.inputs)))) ∧
    findMatchingUDF gOverloads "g" [.unknown] = .ok (some ⟨"g", [.si64], [.si64]⟩) ∧
    findMatchingUDF gOverloads "g" [.strTy] =
      .error (.noMatch "g" [.strTy] [[.si64], [.f64]]) := by
  refine ⟨?_, ?_, ?_, ?_, rfl, rfl⟩
  · intro fns nm argTys hfil
    simp [findMatchingUDF, hfil]
  · intro fns nm argTys f h
    simp only [findMatchingUDF] at h
    cases hfind : (fns.filter (fun f => f.name == nm)).find? (fun f => candidateMatches f argTys) with
    | none =>
      rw [hfind] at h
      by_cases he : (fns.filter (fun f => f.name == nm)).isEmpty <;> simp [he] at h
    | some f1 =>
      rw [hfind] at h
      cases h
      have hmem := List.mem_of_find?_eq_some hfind
      have hp := List.find?_some hfind
      rw [List.mem_filter] at hmem
      have hp2 : (f.inputs.length == argTys.length) = true ∧
          ((f.inputs.zip argTys).all (fun p => argAndUDFParamCompatible p.2 p.1)) = true := by
        unfold candidateMatches at hp
        exact (Bool.and_eq_true _ _).mp hp
      exact ⟨hmem.1, by simpa using hmem.2, by simpa using hp2.1, hp2.2⟩
  · intro a p
    cases a <;> cases p <;>
      simp [argAndUDFParamCompatible]
  · intro fns nm argTys hne hall
    have hfind : (fns.filter (fun f => f.name == nm)).find?
        (fun f => candidateMatches f argTys) = none := by
      rw [List.find?_eq_none]
      intro f hf
      simp [hall f hf]
    simp [findMatchingUDF, hfind, List.isEmpty_iff, hne]

/-- Witness for the hypothesis-bearing parts of `udf_overload_resolution`:
an unregistered name falls through, a successful resolution satisfies the
candidate conditions, and a registered name with no matching overload
produces the enumerating error. -/
theorem udf_overload_resolution_witness :
    findMatchingUDF gOverloads "h" [.si64] = .ok none ∧
    ((⟨"g", [.si64], [.si64]⟩ : FuncDef) ∈ gOverloads ∧
      (⟨"g", [.si64], [.si64]⟩ : FuncDef).name = "g" ∧
      (⟨"g", [.si64], [.si64]⟩ : FuncDef).inputs.length = [DType.unknown].length ∧
      ((⟨"g", [.si64], [.si64]⟩ : FuncDef).inputs.zip [DType.unknown]).all
        (fun p => argAndUDFParamCompatible p.2 p.1) = true) ∧
    findMatchingUDF gOverloads "g" [.strTy] =
      .error (.noMatch "g" [.strTy] [[.si64], [.f64]]) :=
  ⟨udf_overload_resolution.1 gOverloads "h" [.si64] (by decide),
   udf_overload_resolution.2.1 gOverloads "g" [.unknown] ⟨"g", [.si64], [.si64]⟩ rfl,
   udf_overload_resolution.2.2.2.1 gOverloads "g" [.strTy] (by decide) (by decide)⟩

/-- C9: for indexed writes, an axis position given as a data object raises
an UnsupportedFeatureError and an axis position given as a label string
raises an UnsupportedFeatureError both for label-supporting targets and
otherwise (two distinct messages); for reads, a scalar position performs a
width-1 slice `[v, v+1)` and a range performs a slice whose omitted bounds
default to 0 and the axis size. -/
theorem indexing_write_errors_read_slices :
    (∀ v el al, applyLeftIndexing (.pos v (.matrix el)) al = .error .leftDataObjUnsupported) ∧
    (∀ v cols al, applyLeftIndexing (.pos v (.frame cols)) al = .error .leftDataObjUnsupported) ∧
    (∀ v, applyLeftIndexing (.pos v .strTy) true = .error .leftLabelUnsupported) ∧
    (∀ v, applyLeftIndexing (.pos v .strTy) false = .error .leftLabelNotAllowed) ∧
    (∀ v ty al, hasObjType ty = false → ty ≠ DType.strTy →
      applyRightIndexing (.pos v ty) al = .ok (.sliceAx (.bval v) (.plusOne v)) ∧
      ∀ (env : Val → Int) (axSz : Int),
        (Bound.bval v).evalB env axSz = env v ∧
        (Bound.plusOne v).evalB env axSz = env v + 1) ∧
    (∀ al, applyRightIndexing (.range none none) al = .ok (.sliceAx .zero .axSize) ∧
      ∀ v1 v2, applyRightIndexing (.range (some v1) (some v2)) al =
        .ok (.sliceAx (.bval v1) (.bval v2))) ∧
    (∀ (env : Val → Int) (axSz : Int),
      Bound.zero.evalB env axSz = 0 ∧ Bound.axSize.evalB env axSz = axSz) := by
  refine ⟨fun v el al => rfl, fun v cols al => rfl, fun v => rfl, fun v => rfl,
    ?_, fun al => ⟨rfl, fun v1 v2 => rfl⟩, fun env axSz => ⟨rfl, rfl⟩⟩
  intro v ty al hobj hstr
  have hbeq : (ty == DType.strTy) = false := by
    simpa using hstr
  exact ⟨by simp [applyRightIndexing, hobj, hbeq], fun env axSz => ⟨rfl, rfl⟩⟩

/-- Witness for `indexing_write_errors_read_slices`: the scalar-read
conjunct applied at an si64 position. -/
theorem indexing_write_errors_read_slices_witness :
    applyRightIndexing (.pos (.ssa 7) .si64) false =
      .ok (.sliceAx (.bval (.ssa 7)) (.plusOne (.ssa 7))) :=
  (indexing_write_errors_read_slices.2.2.2.2.1 (.ssa 7) .si64 false rfl (by decide)).1

/-- C8: assigning (with or without left indexing) to a name whose current
binding is read-only fails with the read-only violation naming that
variable; in particular, the counted for-loop binds its induction variable
read-only, so any assignment to it inside the loop body fails. -/
theorem readonly_assignment_rejected :
    (∀ st var hasIdx val ty info, SymTab.get st var = some info → info.readOnly = true →
      handleAssignmentPart st var hasIdx val ty = .error (.readOnlyViolation var)) ∧
    (∀ st iv ph dir x ty hasIdx,
      handleAssignmentPart (bindForInductionVar st iv ph dir) iv hasIdx x ty =
        .error (.readOnlyViolation iv)) := by
  constructor
  · intro st var hasIdx val ty info hget hro
    simp [handleAssignmentPart, hget, hro]
  · intro st iv ph dir x ty hasIdx
    simp [handleAssignmentPart, bindForInductionVar, SymTab.put, SymTab.get]

/-- Witness for `readonly_assignment_rejected`: the general read-only part
applied at a concrete one-entry table. -/
theorem readonly_assignment_rejected_witness :
    handleAssignmentPart [("i", ⟨.ssa 0, .si64, true⟩)] "i" false (.ssa 1) .si64 =
      .error (.readOnlyViolation "i") :=
  readonly_assignment_rejected.1 [("i", ⟨.ssa 0, .si64, true⟩)] "i" false (.ssa 1) .si64
    ⟨.ssa 0, .si64, true⟩ rfl rfl

/-- C10: the parallel-for loop binds its induction variable writable
(read-only flag false), so a plain assignment to it inside the body
succeeds and rebinds the name — unlike the counted for-loop, whose
induction variable is bound read-only and rejects the same assignment. -/
theorem parfor_iv_writable :
    ∀ st iv ph x ty,
      handleAssignmentPart (bindParForInductionVar st iv ph) iv false x ty =
        .ok ((bindParForInductionVar st iv ph).put iv
          ⟨renameIf (bindParForInductionVar st iv ph) x, ty, false⟩) ∧
      ∀ dir, handleAssignmentPart (bindForInductionVar st iv ph dir) iv false x ty =
        .error (.readOnlyViolation iv) := by
  intro st iv ph x ty
  constructor
  · simp [handleAssignmentPart, bindParForInductionVar, SymTab.put, SymTab.get]
  · intro dir
    simp [handleAssignmentPart, bindForInductionVar, SymTab.put, SymTab.get]

/-- A reported ambiguity of `mergeTypes` concerns a name of the processed
list and reports that name's actual branch types, which are incompatible. -/
theorem mergeTypes_error_ambiguous
    (st ot oe : SymTab) (n : String) (t1 t2 : DType) :
    ∀ ns : List String,
      mergeTypes st ot oe ns = .error (.ambiguous ⟨n, t1, t2⟩) →
      n ∈ ns ∧ ∃ iT iE, getOverlay ot st n = some iT ∧ getOverlay oe st n = some iE ∧
        iT.ty = t1 ∧ iE.ty = t2 ∧ equalUnknownAware t1 t2 = false := by
  intro ns
  induction ns with
  | nil => intro h; simp [mergeTypes] at h
  | cons m rest ih =>
    intro h
    simp only [mergeTypes] at h
    cases hT : getOverlay ot st m with
    | none =>
      cases hE : getOverlay oe st m <;> simp [hT, hE] at h
    | some iT =>
      cases hE : getOverlay oe st m with
      | none => simp [hT, hE] at h
      | some iE =>
        simp only [hT, hE] at h
        by_cases hc : equalUnknownAware iT.ty iE.ty = true
        · rw [if_pos hc] at h
          cases hrec : mergeTypes st ot oe rest with
          | ok tl => rw [hrec] at h; cases h
          | error e =>
            rw [hrec] at h
            cases h
            have := ih hrec
            exact ⟨List.mem_cons_of_mem _ this.1, this.2⟩
        · rw [if_neg hc] at h
          cases h
          refine ⟨List.mem_cons_self _ _, iT, iE, hT, hE, rfl, rfl, ?_⟩
          simpa using hc

/-- When every processed name has compatible branch types, `mergeTypes`
succeeds and returns one type per name, in order. -/
theorem mergeTypes_ok (st ot oe : SymTab) :
    ∀ ns : List String,
      (∀ n ∈ ns, ∃ iT iE, getOverlay ot st n = some iT ∧ getOverlay oe st n = some iE ∧
        equalUnknownAware iT.ty iE.ty = true) →
      ∃ tl, mergeTypes st ot oe ns = .ok tl ∧ tl.map Prod.fst = ns := by
  intro ns
  induction ns with
  | nil => intro _; exact ⟨[], rfl, rfl⟩
  | cons m rest ih =>
    intro hall
    obtain ⟨iT, iE, hT, hE, hc⟩ := hall m (List.mem_cons_self _ _)
    obtain ⟨tl, htl, hmap⟩ := ih (fun n hn => hall n (List.mem_cons_of_mem _ hn))
    refine ⟨(m, iT.ty) :: tl, ?_, by simp [hmap]⟩
    simp only [mergeTypes, hT, hE, if_pos hc, htl]

/-- When every processed name is bound in both branch views and some
processed name has incompatible branch types, `mergeTypes` fails with the
ambiguity error, and the error names an offending variable together with
that variable's actual branch types. -/
theorem mergeTypes_error_of_incompat (st ot oe : SymTab) :
    ∀ ns : List String,
      (∀ n ∈ ns, ∃ iT iE, getOverlay ot st n = some iT ∧ getOverlay oe st n = some iE) →
      ∀ n ∈ ns, ∀ iT iE, getOverlay ot st n = some iT → getOverlay oe st n = some iE →
      equalUnknownAware iT.ty iE.ty = false →
      ∃ n2 iT2 iE2, n2 ∈ ns ∧
        getOverlay ot st n2 = some iT2 ∧ getOverlay oe st n2 = some iE2 ∧
        equalUnknownAware iT2.ty iE2.ty = false ∧
        mergeTypes st ot oe ns = .error (.ambiguous ⟨n2, iT2.ty, iE2.ty⟩) := by
  intro ns
  induction ns with
  | nil => intro _ n hn; simp at hn
  | cons m rest ih =>
    intro hbound n hn iT iE hT hE hbad
    obtain ⟨iTm, iEm, hTm, hEm⟩ := hbound m (List.mem_cons_self _ _)
    by_cases hcm : equalUnknownAware iTm.ty iEm.ty = true
    · have hnr : n ∈ rest := by
        rcases List.mem_cons.mp hn with hnm | hnr
        · subst hnm
          rw [hT] at hTm
          cases hTm
          rw [hE] at hEm
          cases hEm
          rw [hcm] at hbad
          cases hbad
        · exact hnr
      obtain ⟨n2, iT2, iE2, h1, h2, h3, h4, h5⟩ :=
        ih (fun x hx => hbound x (List.mem_cons_of_mem _ hx)) n hnr iT iE hT hE hbad
      refine ⟨n2, iT2, iE2, List.mem_cons_of_mem _ h1, h2, h3, h4, ?_⟩
      simp only [mergeTypes, hTm, hEm, if_pos hcm, h5]
    · refine ⟨m, iTm, iEm, List.mem_cons_self _ _, hTm, hEm, by simpa using hcm, ?_⟩
      simp only [mergeTypes, hTm, hEm]
      rw [if_neg hcm]

/-- C3: for every if-statement and every name rebound in either branch
(all live-out names being bound in both branch views), if some name's
then-branch type and else-branch type fail the equal-or-Unknown check, the
lowering fails with a TypeAmbiguityError, and the error names an offending
variable together with that variable's two branch types; conversely any
reported ambiguity concerns a live-out name whose actual branch types are
incompatible; and when all live-out names pass the check, the merge
succeeds and each name is rebound to the correspondingly indexed result of
the conditional. -/
theorem if_merge_type_check :
    (∀ st hasElse owThen owElse,
      (∀ n ∈ liveOutNames owThen owElse, ∃ iT iE,
        getOverlay owThen st n = some iT ∧ getOverlay owElse st n = some iE) →
      ∀ n ∈ liveOutNames owThen owElse, ∀ iT iE,
        getOverlay owThen st n = some iT → getOverlay owElse st n = some iE →
        equalUnknownAware iT.ty iE.ty = false →
      ∃ n2 iT2 iE2, n2 ∈ liveOutNames owThen owElse ∧
        getOverlay owThen st n2 = some iT2 ∧ getOverlay owElse st n2 = some iE2 ∧
        equalUnknownAware iT2.ty iE2.ty = false ∧
        lowerIf st hasElse owThen owElse = .error (.ambiguous ⟨n2, iT2.ty, iE2.ty⟩)) ∧
    (∀ st hasElse owThen owElse n t1 t2,
      lowerIf st hasElse owThen owElse = .error (.ambiguous ⟨n, t1, t2⟩) →
      n ∈ liveOutNames owThen owElse ∧
      ∃ iT iE, getOverlay owThen st n = some iT ∧ getOverlay owElse st n = some iE ∧
        iT.ty = t1 ∧ iE.ty = t2 ∧ equalUnknownAware t1 t2 = false) ∧
    (∀ st hasElse owThen owElse,
      (∀ n ∈ liveOutNames owThen owElse, ∃ iT iE,
        getOverlay owThen st n = some iT ∧ getOverlay owElse st n = some iE ∧
        equalUnknownAware iT.ty iE.ty = true) →
      ∃ L, lowerIf st hasElse owThen owElse = .ok L ∧
        L.liveOut = liveOutNames owThen owElse ∧
        L.bindings.map Prod.fst = liveOutNames owThen owElse ∧
        L.bindings.map (fun p => p.2.1) = List.range (liveOutNames owThen owElse).length) := by
  refine ⟨?_, ?_, ?_⟩
  · intro st hasElse ot oe hbound n hn iT iE hT hE hbad
    obtain ⟨n2, iT2, iE2, h1, h2, h3, h4, h5⟩ :=
      mergeTypes_error_of_incompat st ot oe _ hbound n hn iT iE hT hE hbad
    refine ⟨n2, iT2, iE2, h1, h2, h3, h4, ?_⟩
    simp only [lowerIf, h5]
  · intro st hasElse ot oe n t1 t2 h
    simp only [lowerIf] at h
    cases hm : mergeTypes st ot oe (liveOutNames ot oe) with
    | error e =>
      rw [hm] at h
      cases h
      exact mergeTypes_error_ambiguous st ot oe n t1 t2 _ hm
    | ok tys => rw [hm] at h; cases h
  · intro st hasElse ot oe hall
    obtain ⟨tl, htl, hmap⟩ := mergeTypes_ok st ot oe _ hall
    refine ⟨{ liveOut := liveOutNames ot oe,
              elseRegion := hasElse || !(liveOutNames ot oe).isEmpty,
              bindings := tl.enum.map (fun p => (p.2.1, p.1, p.2.2)) },
            by simp only [lowerIf, htl], rfl, ?_, ?_⟩
    · have hb : (tl.enum.map (fun p => (p.2.1, p.1, p.2.2))).map Prod.fst
          = tl.map Prod.fst := by
        rw [List.map_map,
          show (Prod.fst ∘ fun p : Nat × String × DType => (p.2.1, p.1, p.2.2))
              = Prod.fst ∘ Prod.snd from rfl,
          ← List.map_map, List.enum_map_snd]
      rw [hb, hmap]
    · have hb2 : (tl.enum.map (fun p => (p.2.1, p.1, p.2.2))).map (fun p => p.2.1)
          = List.range tl.length := by
        rw [List.map_map,
          show ((fun p : String × Nat × DType => p.2.1) ∘
              fun p : Nat × String × DType => (p.2.1, p.1, p.2.2)) = Prod.fst from rfl,
          List.enum_map_fst]
      rw [hb2, ← hmap, List.length_map]

/-- Witness for `if_merge_type_check`: with the outer binding `x : si64`,
a then-branch rebinding `x : f64` and no else-branch rebinding, the
incompatible pair forces the lowering to fail with the ambiguity error;
the reported error is sound; and rebinding `x : si64` instead merges
successfully. -/
theorem if_merge_type_check_witness :
    (∃ n2 iT2 iE2, n2 ∈ liveOutNames [("x", ⟨.ssa 1, .f64, false⟩)] [] ∧
      getOverlay [("x", ⟨.ssa 1, .f64, false⟩)] [("x", ⟨.ssa 0, .si64, false⟩)] n2 = some iT2 ∧
      getOverlay [] [("x", ⟨.ssa 0, .si64, false⟩)] n2 = some iE2 ∧
      equalUnknownAware iT2.ty iE2.ty = false ∧
      lowerIf [("x", ⟨.ssa 0, .si64, false⟩)] true [("x", ⟨.ssa 1, .f64, false⟩)] [] =
        .error (.ambiguous ⟨n2, iT2.ty, iE2.ty⟩)) ∧
    ("x" ∈ liveOutNames [("x", ⟨.ssa 1, .f64, false⟩)] [] ∧
      ∃ iT iE, getOverlay [("x", ⟨.ssa 1, .f64, false⟩)] [("x", ⟨.ssa 0, .si64, false⟩)] "x" = some iT ∧
        getOverlay [] [("x", ⟨.ssa 0, .si64, false⟩)] "x" = some iE ∧
        iT.ty = .f64 ∧ iE.ty = .si64 ∧ equalUnknownAware .f64 .si64 = false) ∧
    (∃ L, lowerIf [("x", ⟨.ssa 0, .si64, false⟩)] false [("x", ⟨.ssa 1, .si64, false⟩)] [] = .ok L ∧
      L.liveOut = liveOutNames [("x", ⟨.ssa 1, .si64, false⟩)] [] ∧
      L.bindings.map Prod.fst = liveOutNames [("x", ⟨.ssa 1, .si64, false⟩)] [] ∧
      L.bindings.map (fun p => p.2.1) =
        List.range (liveOutNames [("x", ⟨.ssa 1, .si64, false⟩)] []).length) :=
  ⟨if_merge_type_check.1 [("x", ⟨.ssa 0, .si64, false⟩)] true
      [("x", ⟨.ssa 1, .f64, false⟩)] []
      (fun n hn => by
        have hx : n = "x" := List.mem_singleton.mp hn
        subst hx
        exact ⟨⟨.ssa 1, .f64, false⟩, ⟨.ssa 0, .si64, false⟩, rfl, rfl⟩)
      "x" (by decide) ⟨.ssa 1, .f64, false⟩ ⟨.ssa 0, .si64, false⟩ rfl rfl rfl,
   if_merge_type_check.2.1 [("x", ⟨.ssa 0, .si64, false⟩)] true
      [("x", ⟨.ssa 1, .f64, false⟩)] [] "x" .f64 .si64 rfl,
   if_merge_type_check.2.2 [("x", ⟨.ssa 0, .si64, false⟩)] false
      [("x", ⟨.ssa 1, .si64, false⟩)] []
      (fun n hn => by
        have hx : n = "x" := List.mem_singleton.mp hn
        subst hx
        exact ⟨⟨.ssa 1, .si64, false⟩, ⟨.ssa 0, .si64, false⟩, rfl, rfl, rfl⟩)⟩

/-- C7: the lowered conditional is given an else region exactly when the
script had an explicit else branch or the live-out set is non-empty; when
neither holds no else region is synthesized. -/
theorem if_else_region_iff :
    ∀ st hasElse owThen owElse L,
      lowerIf st hasElse owThen owElse = .ok L →
      (L.elseRegion = true ↔ (hasElse = true ∨ liveOutNames owThen owElse ≠ [])) := by
  intro st he ot oe L h
  simp only [lowerIf] at h
  cases hm : mergeTypes st ot oe (liveOutNames ot oe) with
  | error e => rw [hm] at h; cases h
  | ok tys =>
    rw [hm] at h
    cases h
    simp [Bool.or_eq_true, List.isEmpty_iff]

/-- Witness for `if_else_region_iff`: a source if-statement without else
branch but with a rebound variable gets an else region. -/
theorem if_else_region_iff_witness :
    (({ liveOut := ["x"], elseRegion := true,
        bindings := [("x", 0, DType.si64)] } : IfLowering).elseRegion = true ↔
      (false = true ∨ liveOutNames [("x", ⟨.ssa 1, .si64, false⟩)] [] ≠ [])) :=
  if_else_region_iff [("x", ⟨.ssa 0, .si64, false⟩)] false
    [("x", ⟨.ssa 1, .si64, false⟩)] []
    { liveOut := ["x"], elseRegion := true, bindings := [("x", 0, DType.si64)] } rfl

/-- A block the fixpoint loop completed on satisfies the loop's stop
condition: the next iteration immediately stops. -/
theorem rectify_ok_fixpoint :
    ∀ fuel b b1, rectifyEarlyReturns fuel b = .ok b1 → rectifyStep b1 = .ok .fin := by
  intro fuel
  induction fuel with
  | zero => intro b b1 h; simp [rectifyEarlyReturns] at h
  | succ n ih =>
    intro b b1 h
    simp only [rectifyEarlyReturns] at h
    cases hs : rectifyStep b with
    | error e => rw [hs] at h; cases h
    | ok r =>
      rw [hs] at h
      cases r with
      | fin => cases h; exact hs
      | next b2 => exact ih b2 b1 h

/-- C2 (amended): running the Return Rectifier on a body it has already
rectified changes nothing — whenever the fixpoint loop completes, running
it again (with any fuel) returns the same body unchanged (idempotence).
However, a single application of the rewrite step does not always strictly
decrease the maximum return-nesting depth: it can increase it, so the
spec's claimed termination measure is invalid (see the counterexample). -/
theorem rectifier_idempotent :
    ∀ fuel fuel2 b b1, rectifyEarlyReturns fuel b = .ok b1 →
      rectifyEarlyReturns (fuel2 + 1) b1 = .ok b1 := by
  intro fuel fuel2 b b1 h
  have hf := rectify_ok_fixpoint fuel b b1 h
  simp [rectifyEarlyReturns, hf]

/-- Witness for `rectifier_idempotent`: on the two-sibling-conditional body
the loop completes in four steps, and re-running the rectifier on the
result is a no-op. -/
theorem rectifier_idempotent_witness :
    rectifyEarlyReturns 10 twoSiblingIfBody = .ok twoSiblingIfDone ∧
    rectifyEarlyReturns 3 twoSiblingIfDone = .ok twoSiblingIfDone :=
  ⟨rfl, rectifier_idempotent 10 2 twoSiblingIfBody twoSiblingIfDone rfl⟩

/-- C2 counterexample: on `twoSiblingIfBody` the rewrite step picks the
return in the first conditional and moves the entire rest of the block —
including the second conditional with its own return — into the rebuilt
conditional's else branch, so the maximum return-nesting depth rises from
2 to 3 instead of strictly decreasing. -/
theorem rectifier_step_depth_increases_cex :
    rectifyStep twoSiblingIfBody = .ok (.next twoSiblingIfStep1) ∧
    maxRetDepth twoSiblingIfBody = 2 ∧
    maxRetDepth twoSiblingIfStep1 = 3 ∧
    ¬ maxRetDepth twoSiblingIfStep1 < maxRetDepth twoSiblingIfBody :=
  ⟨rfl, rfl, rfl, by decide⟩

/-- If the k-th return of a block is top-level in it, its parent kind is
the block's own owner kind. -/
theorem kthRetTopLevel_parentKind :
    ∀ (ops : List Op) (k : Nat) (pk : PKind),
      kthRetTopLevel ops k = true → parentKindOps ops k pk = some pk := by
  intro ops
  induction ops with
  | nil => intro k pk h; simp [kthRetTopLevel] at h
  | cons o rest ih =>
    intro k pk h
    cases o with
    | ret vs =>
      cases k with
      | zero => simp [parentKindOps, countRetsOp, parentKindOp]
      | succ k =>
        simp only [kthRetTopLevel] at h
        simp only [parentKindOps, countRetsOp]
        have hlt : ¬ (k + 1 < 1) := by omega
        rw [if_neg hlt]
        simpa using ih k pk h
    | yld vs =>
      simp only [kthRetTopLevel, countRetsOp] at h
      rw [if_neg (by omega)] at h
      simp only [parentKindOps, countRetsOp]
      rw [if_neg (by omega)]
      exact ih _ pk h
    | op i =>
      simp only [kthRetTopLevel, countRetsOp] at h
      rw [if_neg (by omega)] at h
      simp only [parentKindOps, countRetsOp]
      rw [if_neg (by omega)]
      exact ih _ pk h
    | scfIf c tb eb =>
      simp only [kthRetTopLevel] at h
      by_cases hlt : k < countRetsOp (Op.scfIf c tb eb)
      · rw [if_pos hlt] at h; cases h
      · rw [if_neg hlt] at h
        simp only [parentKindOps]
        rw [if_neg hlt]
        exact ih _ pk h
    | parForOp body =>
      simp only [kthRetTopLevel] at h
      by_cases hlt : k < countRetsOp (Op.parForOp body)
      · rw [if_pos hlt] at h; cases h
      · rw [if_neg hlt] at h
        simp only [parentKindOps]
        rw [if_neg hlt]
        exact ih _ pk h
    | regionOp nm body =>
      simp only [kthRetTopLevel] at h
      by_cases hlt : k < countRetsOp (Op.regionOp nm body)
      · rw [if_pos hlt] at h; cases h
      · rw [if_neg hlt] at h
        simp only [parentKindOps]
        rw [if_neg hlt]
        exact ih _ pk h

/-- Dispatch property: when the chosen return's parent is a `ParForOp`, the
navigation breaks; when it is a non-if, non-parfor region operation, the
navigation fails with the structural error naming that operation. -/
theorem parent_dispatch_aux :
    ∀ n : Nat,
      (∀ o : Op, sizeOf o ≤ n → ∀ (k : Nat) (rest : List Op) (ctx : List Frame),
        (parentKindOp o k (kindOfCtx ctx) = some .pParfor →
          rewriteOp o k rest ctx = .ok .brk) ∧
        (∀ nm, parentKindOp o k (kindOfCtx ctx) = some (.pRegion nm) →
          rewriteOp o k rest ctx = .error (.earlyReturnIn nm))) ∧
      (∀ ops : List Op, sizeOf ops ≤ n → ∀ (k : Nat) (ctx : List Frame),
        (parentKindOps ops k (kindOfCtx ctx) = some .pParfor →
          rewriteBlock ops k ctx = .ok .brk) ∧
        (∀ nm, parentKindOps ops k (kindOfCtx ctx) = some (.pRegion nm) →
          rewriteBlock ops k ctx = .error (.earlyReturnIn nm))) := by
  intro n
  induction n with
  | zero =>
    constructor
    · intro o hsz; exfalso; cases o <;> simp at hsz
    · intro ops hsz; exfalso; cases ops <;> simp at hsz
  | succ n ih =>
    constructor
    · intro o hsz k rest ctx
      cases o with
      | ret vs =>
        constructor
        · intro hp
          simp only [parentKindOp] at hp
          cases k with
          | zero =>
            rw [if_pos rfl] at hp
            cases ctx with
            | nil => simp [kindOfCtx] at hp
            | cons fr t =>
              obtain ⟨ow, sfx⟩ := fr
              cases ow with
              | ifOwner => simp [kindOfCtx] at hp
              | parforOwner => rfl
              | regionOwner nm2 => simp [kindOfCtx] at hp
          | succ k => rw [if_neg (by omega)] at hp; cases hp
        · intro nm hp
          simp only [parentKindOp] at hp
          cases k with
          | zero =>
            rw [if_pos rfl] at hp
            cases ctx with
            | nil => simp [kindOfCtx] at hp
            | cons fr t =>
              obtain ⟨ow, sfx⟩ := fr
              cases ow with
              | ifOwner => simp [kindOfCtx] at hp
              | parforOwner => simp [kindOfCtx] at hp
              | regionOwner nm2 =>
                simp only [kindOfCtx] at hp
                cases hp
                rfl
          | succ k => rw [if_neg (by omega)] at hp; cases hp
      | yld vs =>
        constructor
        · intro hp; simp [parentKindOp] at hp
        · intro nm hp; simp [parentKindOp] at hp
      | op i =>
        constructor
        · intro hp; simp [parentKindOp] at hp
        · intro nm hp; simp [parentKindOp] at hp
      | scfIf c tb eb =>
        have hszt : sizeOf tb ≤ n := by simp at hsz; omega
        have hsze : sizeOf eb ≤ n := by simp at hsz; omega
        constructor
        · intro hp
          simp only [parentKindOp] at hp
          by_cases hlt : k < countRetsOps tb
          · rw [if_pos hlt] at hp
            have hktop : kthRetTopLevel tb k = false := by
              by_contra hc
              rw [kthRetTopLevel_parentKind tb k .pIf
                (by revert hc; cases kthRetTopLevel tb k <;> simp)] at hp
              cases hp
            have hbrk := ((ih.2 tb hszt) k ((Owner.ifOwner, rest) :: ctx)).1 hp
            simp only [rewriteOp]
            rw [if_pos hlt, hktop]
            simp [hbrk]
          · rw [if_neg hlt] at hp
            have hktop : kthRetTopLevel eb (k - countRetsOps tb) = false := by
              by_contra hc
              rw [kthRetTopLevel_parentKind eb (k - countRetsOps tb) .pIf
                (by revert hc; cases kthRetTopLevel eb (k - countRetsOps tb) <;> simp)] at hp
              cases hp
            have hbrk := ((ih.2 eb hsze) (k - countRetsOps tb) ((Owner.ifOwner, rest) :: ctx)).1 hp
            simp only [rewriteOp]
            rw [if_neg hlt, hktop]
            simp [hbrk]
        · intro nm hp
          simp only [parentKindOp] at hp
          by_cases hlt : k < countRetsOps tb
          · rw [if_pos hlt] at hp
            have hktop : kthRetTopLevel tb k = false := by
              by_contra hc
              rw [kthRetTopLevel_parentKind tb k .pIf
                (by revert hc; cases kthRetTopLevel tb k <;> simp)] at hp
              cases hp
            have herr := ((ih.2 tb hszt) k ((Owner.ifOwner, rest) :: ctx)).2 nm hp
            simp only [rewriteOp]
            rw [if_pos hlt, hktop]
            simp [herr]
          · rw [if_neg hlt] at hp
            have hktop : kthRetTopLevel eb (k - countRetsOps tb) = false := by
              by_contra hc
              rw [kthRetTopLevel_parentKind eb (k - countRetsOps tb) .pIf
                (by revert hc; cases kthRetTopLevel eb (k - countRetsOps tb) <;> simp)] at hp
              cases hp
            have herr := ((ih.2 eb hsze) (k - countRetsOps tb) ((Owner.ifOwner, rest) :: ctx)).2 nm hp
            simp only [rewriteOp]
            rw [if_neg hlt, hktop]
            simp [herr]
      | parForOp body =>
        have hszb : sizeOf body ≤ n := by simp at hsz; omega
        constructor
        · intro hp
          simp only [parentKindOp] at hp
          have hbrk := ((ih.2 body hszb) k ((Owner.parforOwner, rest) :: ctx)).1 hp
          simp only [rewriteOp]
          simp [hbrk]
        · intro nm hp
          simp only [parentKindOp] at hp
          have herr := ((ih.2 body hszb) k ((Owner.parforOwner, rest) :: ctx)).2 nm hp
          simp only [rewriteOp]
          simp [herr]
      | regionOp nm2 body =>
        have hszb : sizeOf body ≤ n := by simp at hsz; omega
        constructor
        · intro hp
          simp only [parentKindOp] at hp
          have hbrk := ((ih.2 body hszb) k ((Owner.regionOwner nm2, rest) :: ctx)).1 hp
          simp only [rewriteOp]
          simp [hbrk]
        · intro nm hp
          simp only [parentKindOp] at hp
          have herr := ((ih.2 body hszb) k ((Owner.regionOwner nm2, rest) :: ctx)).2 nm hp
          simp only [rewriteOp]
          simp [herr]
    · intro ops hsz k ctx
      cases ops with
      | nil =>
        constructor
        · intro hp; simp [parentKindOps] at hp
        · intro nm hp; simp [parentKindOps] at hp
      | cons o rest =>
        have hszo : sizeOf o ≤ n := by simp at hsz; omega
        have hszr : sizeOf rest ≤ n := by simp at hsz; omega
        constructor
        · intro hp
          simp only [parentKindOps] at hp
          by_cases hlt : k < countRetsOp o
          · rw [if_pos hlt] at hp
            have := ((ih.1 o hszo) k rest ctx).1 hp
            simp only [rewriteBlock]
            rw [if_pos hlt]
            exact this
          · rw [if_neg hlt] at hp
            have hbrk := ((ih.2 rest hszr) (k - countRetsOp o) ctx).1 hp
            simp only [rewriteBlock]
            rw [if_neg hlt]
            simp [hbrk]
        · intro nm hp
          simp only [parentKindOps] at hp
          by_cases hlt : k < countRetsOp o
          · rw [if_pos hlt] at hp
            have := ((ih.1 o hszo) k rest ctx).2 nm hp
            simp only [rewriteBlock]
            rw [if_pos hlt]
            exact this
          · rw [if_neg hlt] at hp
            have herr := ((ih.2 rest hszr) (k - countRetsOp o) ctx).2 nm hp
            simp only [rewriteBlock]
            rw [if_neg hlt]
            simp [herr]

/-- C6: during return rectification, a return whose immediately enclosing
construct is a parallel-for body is skipped — the pass completes without
rewriting it and without error — while a return whose immediately enclosing
construct is any other non-conditional region operation (for example an
`scf.for` or `scf.while` loop) aborts lowering with the structural error
naming that operation. -/
theorem return_dispatch_parfor_skip_loop_error :
    ∀ (b : List Op) (dM k fuel : Nat),
      pickMostNested (retDepthsOps b 1) = some (dM, k) →
      chosenIsBack b k = false →
      (parentKindOps b k .pFunc = some .pParfor →
        rectifyEarlyReturns (fuel + 1) b = .ok b) ∧
      (∀ nm, parentKindOps b k .pFunc = some (.pRegion nm) →
        rectifyEarlyReturns (fuel + 1) b = .error (.earlyReturnIn nm)) := by
  intro b dM k fuel hpick hback
  constructor
  · intro hp
    have hrw : rewriteBlock b k [] = .ok .brk :=
      ((parent_dispatch_aux (sizeOf b)).2 b le_rfl k []).1 hp
    simp [rectifyEarlyReturns, rectifyStep, hpick, hback, hrw]
  · intro nm hp
    have hrw : rewriteBlock b k [] = .error (.earlyReturnIn nm) :=
      ((parent_dispatch_aux (sizeOf b)).2 b le_rfl k []).2 nm hp
    simp [rectifyEarlyReturns, rectifyStep, hpick, hback, hrw]

/-- Witness for `return_dispatch_parfor_skip_loop_error`: a return directly
inside a parallel-for body is left alone and the pass succeeds, while a
return directly inside an `scf.for` body aborts with the structural error. -/
theorem return_dispatch_witness :
    rectifyEarlyReturns 1 parforRetBody = .ok parforRetBody ∧
    rectifyEarlyReturns 1 scfForRetBody = .error (.earlyReturnIn "scf.for") :=
  ⟨(return_dispatch_parfor_skip_loop_error parforRetBody 2 0 0 rfl rfl).1 rfl,
   (return_dispatch_parfor_skip_loop_error scfForRetBody 2 0 0 rfl rfl).2 "scf.for" rfl⟩

end Daphne
